import Mathlib

/-
  Verification of the nm-imap-sync synchronization engine.

  This file shallowly embeds the data model and operations of the
  nm-imap-sync repository (Go) into Lean 4:

  * the Go string primitives used for tag serialization
    (strings.Split on ",", strings.TrimSpace, strings.Join),
  * the sync database (SQLite tables `messages` and `uids` from
    sync/migrate.go) as explicit list-backed state,
  * the operations CheckTags / CheckTagsUID / compareTags /
    AddMessageSyncInfo from sync/message.go,
  * the flag translator translateFlags from imap/flags.go,
  * the push path Update / updateUID / createMessage from imap/update.go,
  * the per-folder fetch loop mailboxFetchMessages from imap/fetch.go
    (network, filesystem and notmuch effects are oracle parameters;
    the control flow and state updates are modelled faithfully).
-/

namespace NmSync

/-! ## Go string primitives -/

/-- Go unicode.IsSpace on a single rune (the white-space set used by
strings.TrimSpace). -/
def isGoSpace (c : Char) : Bool :=
  let n := c.toNat
  n = 9 || n = 10 || n = 11 || n = 12 || n = 13 || n = 32 ||
  n = 133 || n = 160 || n = 0x1680 || (0x2000 ≤ n && n ≤ 0x200A) ||
  n = 0x2028 || n = 0x2029 || n = 0x202F || n = 0x205F || n = 0x3000

/-- Character-level body of Go strings.TrimSpace. -/
def trimChars (l : List Char) : List Char :=
  ((l.dropWhile isGoSpace).reverse.dropWhile isGoSpace).reverse

/-- Go strings.TrimSpace. -/
def goTrim (s : String) : String :=
  String.mk (trimChars s.data)

/-- Character-level body of Go strings.Split(s, ","). -/
def splitComma : List Char → List (List Char)
  | [] => [[]]
  | c :: rest =>
    if c = ',' then [] :: splitComma rest
    else
      match splitComma rest with
      | [] => [[c]]
      | g :: gs => (c :: g) :: gs

/-- Character-level body of Go strings.Join(l, ","). -/
def joinComma : List (List Char) → List Char
  | [] => []
  | [x] => x
  | x :: y :: rest => x ++ ',' :: joinComma (y :: rest)

/-- Go strings.Split(s, ","). -/
def goSplitComma (s : String) : List String :=
  (splitComma s.data).map String.mk

/-- Go strings.Join(l, ","). -/
def goJoinComma (l : List String) : String :=
  String.mk (joinComma (l.map String.data))

theorem splitComma_ne_nil : ∀ l : List Char, splitComma l ≠ []
  | [] => by simp [splitComma]
  | c :: rest => by
    unfold splitComma
    by_cases h : c = ','
    · simp [h]
    · simp only [h, if_false]
      cases hs : splitComma rest <;> simp

theorem splitComma_no_comma {l : List Char} (h : ',' ∉ l) : splitComma l = [l] := by
  induction l with
  | nil => rfl
  | cons c rest ih =>
    have hc : c ≠ ',' := fun hc => h (hc ▸ List.mem_cons_self c rest)
    have hr : ',' ∉ rest := fun hr => h (List.mem_cons_of_mem c hr)
    unfold splitComma
    simp only [hc, if_false, ih hr]

theorem splitComma_append {p : List Char} (l : List Char) (hp : ',' ∉ p) :
    splitComma (p ++ ',' :: l) = p :: splitComma l := by
  induction p with
  | nil => simp [splitComma]
  | cons c rest ih =>
    have hc : c ≠ ',' := fun hc => hp (hc ▸ List.mem_cons_self c rest)
    have hr : ',' ∉ rest := fun hr => hp (List.mem_cons_of_mem c hr)
    rw [List.cons_append, splitComma, if_neg hc, ih hr]

theorem splitComma_joinComma :
    ∀ ps : List (List Char), ps ≠ [] → (∀ p ∈ ps, ',' ∉ p) →
      splitComma (joinComma ps) = ps
  | [], h, _ => absurd rfl h
  | [x], _, hc => by
    simp only [joinComma]
    exact splitComma_no_comma (hc x (List.mem_singleton_self x))
  | x :: y :: rest, _, hc => by
    have hx : ',' ∉ x := hc x (List.mem_cons_self _ _)
    have ih := splitComma_joinComma (y :: rest) (by simp)
      (fun p hp => hc p (List.mem_cons_of_mem x hp))
    simp only [joinComma, splitComma_append _ hx, ih]

theorem goSplit_goJoin {w : List String} (hw : w ≠ [])
    (h : ∀ t ∈ w, ',' ∉ t.data) : goSplitComma (goJoinComma w) = w := by
  unfold goSplitComma goJoinComma
  have hne : w.map String.data ≠ [] := by
    intro hcon
    exact hw (List.map_eq_nil_iff.mp hcon)
  have hc : ∀ p ∈ w.map String.data, ',' ∉ p := by
    intro p hp
    obtain ⟨t, ht, rfl⟩ := List.mem_map.mp hp
    exact h t ht
  rw [show (String.mk (joinComma (w.map String.data))).data
        = joinComma (w.map String.data) from rfl,
      splitComma_joinComma _ hne hc, List.map_map]
  exact List.map_id w

/-! ## Tag-set helpers (sync/message.go compareTags) -/

/-- Insertion of a key into a Go map modelled as an insertion-ordered list
of distinct keys (map[string]struct\x7b\x7d with dbMap[t] = struct\x7b\x7d\x7b\x7d). -/
def listInsert (l : List String) (x : String) : List String :=
  if x ∈ l then l else l ++ [x]

/-- The trimmed non-empty entries of a list of tag strings, in order.
This is the sequence of keys the Go loops actually process: each element
is strings.TrimSpace'd and empty results are skipped. -/
def trimmedNonempty : List String → List String
  | [] => []
  | t :: rest =>
    if goTrim t = "" then trimmedNonempty rest
    else goTrim t :: trimmedNonempty rest

/-- The trimmed non-empty pieces of a stored comma-joined tag string. -/
def splitTrim (tags : String) : List String :=
  trimmedNonempty (goSplitComma tags)

/-- dbMap built by compareTags from the stored tag string: trimmed
non-empty pieces, deduplicated keeping first occurrences. -/
def mkDbMap (tags : String) : List String :=
  (splitTrim tags).foldl listInsert []

/-- One iteration of the wantedTags loop of compareTags: trim, skip
empty, delete from dbMap when present, else append to AddedTags. -/
def compareStep (st : List String × List String) (t : String) :
    List String × List String :=
  let t' := goTrim t
  if t' = "" then st
  else if t' ∈ st.1 then (st.1.erase t', st.2)
  else (st.1, st.2 ++ [t'])

/-- compareTags from sync/message.go: returns (AddedTags, RemovedTags).
The remaining dbMap keys become RemovedTags (the Go map-range order is
unspecified; we keep insertion order, and all claims about the result
are membership statements). -/
def compareTags (tags : String) (wantedTags : List String) :
    List String × List String :=
  ((wantedTags.foldl compareStep (mkDbMap tags, [])).2,
   (wantedTags.foldl compareStep (mkDbMap tags, [])).1)

theorem mem_listInsert {l : List String} {x y : String} :
    y ∈ listInsert l x ↔ y ∈ l ∨ y = x := by
  unfold listInsert
  by_cases h : x ∈ l
  · simp only [if_pos h]
    constructor
    · exact Or.inl
    · rintro (hy | rfl)
      · exact hy
      · exact h
  · simp [if_neg h]

theorem nodup_listInsert {l : List String} {x : String} (h : l.Nodup) :
    (listInsert l x).Nodup := by
  unfold listInsert
  by_cases hx : x ∈ l
  · simpa [if_pos hx]
  · rw [if_neg hx]
    simp only [List.nodup_append, List.nodup_singleton]
    refine ⟨h, trivial, ?_⟩
    intro a ha hax
    simp only [List.mem_singleton] at hax
    exact hx (hax ▸ ha)

theorem nodup_foldl_listInsert :
    ∀ (L acc : List String), acc.Nodup → (L.foldl listInsert acc).Nodup
  | [], _, h => h
  | x :: L, acc, h =>
    nodup_foldl_listInsert L (listInsert acc x) (nodup_listInsert h)

theorem mem_foldl_listInsert :
    ∀ (L acc : List String) (y : String),
      y ∈ L.foldl listInsert acc ↔ y ∈ acc ∨ y ∈ L
  | [], acc, y => by simp
  | x :: L, acc, y => by
    rw [List.foldl_cons, mem_foldl_listInsert L (listInsert acc x) y,
      mem_listInsert]
    constructor
    · rintro ((hy | rfl) | hy)
      · exact Or.inl hy
      · exact Or.inr (List.mem_cons_self _ _)
      · exact Or.inr (List.mem_cons_of_mem _ hy)
    · rintro (hy | hy)
      · exact Or.inl (Or.inl hy)
      · rcases List.mem_cons.mp hy with rfl | hy
        · exact Or.inl (Or.inr rfl)
        · exact Or.inr hy

theorem foldl_listInsert_of_nodup :
    ∀ (L acc : List String), L.Nodup → (∀ x ∈ L, x ∉ acc) →
      L.foldl listInsert acc = acc ++ L
  | [], acc, _, _ => by simp
  | x :: L, acc, hnd, hdisj => by
    have hx : x ∉ acc := hdisj x (List.mem_cons_self _ _)
    rw [List.foldl_cons]
    have hstep : listInsert acc x = acc ++ [x] := by
      unfold listInsert
      rw [if_neg hx]
    rw [hstep, foldl_listInsert_of_nodup L (acc ++ [x])
      (List.Nodup.of_cons hnd)
      (by
        intro y hy
        simp only [List.mem_append, List.mem_singleton, not_or]
        refine ⟨hdisj y (List.mem_cons_of_mem _ hy), ?_⟩
        rintro rfl
        exact (List.nodup_cons.mp hnd).1 hy)]
    simp

/-- mkDbMap recovers exactly the trimmed non-empty pieces when those are
already distinct. -/
theorem mkDbMap_eq_of_nodup {tags : String}
    (h : (splitTrim tags).Nodup) : mkDbMap tags = splitTrim tags := by
  unfold mkDbMap
  rw [foldl_listInsert_of_nodup _ _ h (by simp)]
  simp

theorem nodup_mkDbMap (tags : String) : (mkDbMap tags).Nodup :=
  nodup_foldl_listInsert _ _ List.nodup_nil

theorem mem_mkDbMap {tags : String} {y : String} :
    y ∈ mkDbMap tags ↔ y ∈ splitTrim tags := by
  unfold mkDbMap
  rw [mem_foldl_listInsert]
  simp

/-- Master characterization of the wantedTags loop of compareTags:
starting from dbMap M (no duplicate keys) and accumulated AddedTags A,
and assuming the trimmed non-empty wanted entries are distinct, the loop
removes from M exactly the trimmed wanted entries and adds to A exactly
the trimmed wanted entries not present in M. -/
theorem comparePass :
    ∀ (w : List String) (M A : List String), M.Nodup →
      (trimmedNonempty w).Nodup →
      w.foldl compareStep (M, A) =
        (M.filter (fun x => x ∉ trimmedNonempty w),
         A ++ (trimmedNonempty w).filter (fun x => x ∉ M))
  | [], M, A, _, _ => by simp [trimmedNonempty]
  | t :: rest, M, A, hM, hw => by
    rw [List.foldl_cons]
    by_cases ht : goTrim t = ""
    · have hstep : compareStep (M, A) t = (M, A) := by
        unfold compareStep
        simp [ht]
      have htn : trimmedNonempty (t :: rest) = trimmedNonempty rest := by
        simp only [trimmedNonempty]
        rw [if_pos ht]
      rw [hstep, htn]
      exact comparePass rest M A hM (htn ▸ hw)
    · have htn : trimmedNonempty (t :: rest)
          = goTrim t :: trimmedNonempty rest := by
        simp only [trimmedNonempty]
        rw [if_neg ht]
      rw [htn] at hw ⊢
      have hnotin : goTrim t ∉ trimmedNonempty rest :=
        (List.nodup_cons.mp hw).1
      have hwrest : (trimmedNonempty rest).Nodup := (List.nodup_cons.mp hw).2
      by_cases hm : goTrim t ∈ M
      · have hstep : compareStep (M, A) t = (M.erase (goTrim t), A) := by
          unfold compareStep
          simp [ht, hm]
        rw [hstep, comparePass rest _ A (hM.erase _) hwrest]
        simp only [Prod.mk.injEq]
        refine ⟨?_, ?_⟩
        · -- dbMap component
          rw [hM.erase_eq_filter, List.filter_filter]
          apply List.filter_congr
          intro x _
          rw [Bool.eq_iff_iff]
          simp only [Bool.and_eq_true, decide_eq_true_eq, bne_iff_ne, ne_eq,
            List.mem_cons, not_or]
          tauto
        · -- AddedTags component
          rw [List.filter_cons, if_neg (by simp [hm])]
          congr 1
          apply List.filter_congr
          intro x hx
          have hne : x ≠ goTrim t := fun hxe => hnotin (hxe ▸ hx)
          rw [Bool.eq_iff_iff]
          simp only [decide_eq_true_eq]
          exact not_congr (List.mem_erase_of_ne hne)
      · have hstep : compareStep (M, A) t = (M, A ++ [goTrim t]) := by
          unfold compareStep
          simp [ht, hm]
        rw [hstep, comparePass rest M (A ++ [goTrim t]) hM hwrest]
        simp only [Prod.mk.injEq]
        refine ⟨?_, ?_⟩
        · apply List.filter_congr
          intro x hx
          have hne : x ≠ goTrim t := fun hxe => hm (hxe ▸ hx)
          rw [Bool.eq_iff_iff]
          simp only [decide_eq_true_eq, List.mem_cons, not_or]
          tauto
        · rw [List.filter_cons, if_pos (by simp [hm])]
          simp

/-! ## Sync database (sync/migrate.go schema, sync/message.go operations) -/

/-- A row of the messages table:
id INTEGER PRIMARY KEY AUTOINCREMENT, messageid UNIQUE NOT NULL,
tags NOT NULL. -/
structure MessagesRow where
  id : Nat
  messageid : String
  tags : String
  deriving DecidableEq

/-- A row of the uids table:
message_id (FK to messages.id), foldername, uidvalidity, uid,
with a unique index on (uidvalidity, uid). -/
structure UidsRow where
  message_id : Nat
  foldername : String
  uidvalidity : Int
  uid : Int
  deriving DecidableEq

/-- The sync database state. nextId models the AUTOINCREMENT counter.
The lists are in insertion order; SQLite scans them in rowid order. -/
structure SyncDB where
  messages : List MessagesRow
  uids : List UidsRow
  nextId : Nat
  deriving DecidableEq

/-- UID from sync/message.go. -/
structure UID where
  FolderName : String
  UIDValidity : Int
  UID : Int
  deriving DecidableEq

/-- MessageInfo from sync/message.go. -/
structure MessageInfo where
  MessageID : String := ""
  UIDs : List UID := []
  AddedTags : List String := []
  RemovedTags : List String := []
  WantedTags : List String := []
  Created : Bool := false
  deriving DecidableEq

/-- The SQL join of CheckTags:
SELECT tags, foldername, uidvalidity, uid FROM messages
INNER JOIN uids ON uids.message_id = messages.id WHERE messageid = ?.
Each result row carries the message's tags and the joined uids row. -/
def checkTagsRows (db : SyncDB) (messageid : String) :
    List (String × UidsRow) :=
  (db.messages.filter (fun r => r.messageid = messageid)).flatMap
    (fun mrow =>
      (db.uids.filter (fun u => u.message_id = mrow.id)).map
        (fun u => (mrow.tags, u)))

/-- CheckTags from sync/message.go. The Go code scans every row,
overwriting the local tags variable (the last row wins) and collecting
the UID bindings; an empty result means the message is unknown and a
stub binding carrying only the folder name is returned
(sql errors are environmental and not modelled; the row-scan itself
cannot fail). -/
def checkTags (db : SyncDB) (folderName messageid : String)
    (wantedTags : List String) : MessageInfo :=
  match (checkTagsRows db messageid).getLast? with
  | none =>
    { MessageID := messageid, WantedTags := wantedTags, Created := true,
      AddedTags := wantedTags, UIDs := [⟨folderName, 0, 0⟩] }
  | some last =>
    let uidList := (checkTagsRows db messageid).map
      (fun r => (⟨r.2.foldername, r.2.uidvalidity, r.2.uid⟩ : UID))
    let d := compareTags last.1 wantedTags
    { MessageID := messageid, WantedTags := wantedTags, UIDs := uidList,
      AddedTags := d.1, RemovedTags := d.2 }

/-- CheckTagsUID from sync/message.go: QueryRow over
SELECT tags, messageid FROM uids INNER JOIN messages
ON messages.id = uids.message_id
WHERE folderName = ? AND uidvalidity = ? AND uid = ?.
(uidvalidity, uid) is unique, so at most one uids row matches. -/
def checkTagsUID (db : SyncDB) (folderName : String) (uidValidity uid : Int)
    (wantedTags : List String) : MessageInfo :=
  let base : MessageInfo :=
    { WantedTags := wantedTags,
      UIDs := [⟨folderName, uidValidity, uid⟩] }
  match db.uids.find? (fun u =>
      u.foldername = folderName ∧ u.uidvalidity = uidValidity ∧ u.uid = uid) with
  | none => { base with Created := true, AddedTags := wantedTags }
  | some urow =>
    match db.messages.find? (fun m => m.id = urow.message_id) with
    | none => { base with Created := true, AddedTags := wantedTags }
    | some mrow =>
      let d := compareTags mrow.tags wantedTags
      { base with
        MessageID := mrow.messageid,
        AddedTags := d.1, RemovedTags := d.2 }

/-- First messages row with the given messageid
(SELECT id FROM messages WHERE messageid = ?; messageid is UNIQUE, so
in any state SQLite can reach there is at most one). -/
def messagesFind (db : SyncDB) (messageid : String) : Option MessagesRow :=
  db.messages.find? (fun r => r.messageid = messageid)

/-- INSERT INTO messages(messageid, tags) VALUES(?, ?)
ON CONFLICT(messageid) DO UPDATE SET tags=?.
messageid is UNIQUE, so the update branch touches the one matching row;
we map over all rows, which coincides on every state SQLite can reach. -/
def upsertMessage (db : SyncDB) (messageid tagStr : String) : SyncDB :=
  if db.messages.any (fun r => r.messageid = messageid) then
    { db with
      messages := db.messages.map (fun r =>
        if r.messageid = messageid then { r with tags := tagStr } else r) }
  else
    { db with
      messages := db.messages ++ [⟨db.nextId, messageid, tagStr⟩],
      nextId := db.nextId + 1 }

/-- INSERT INTO uids(message_id, foldername, uidvalidity, uid)
SELECT id, ?, ?, ? FROM messages WHERE messageid = ?
ON CONFLICT(uidvalidity, uid) DO NOTHING. -/
def insertUid (db : SyncDB) (folder : String) (v u : Int)
    (messageid : String) : SyncDB :=
  if db.uids.any (fun r => r.uidvalidity = v ∧ r.uid = u) then db
  else
    match messagesFind db messageid with
    | none => db
    | some mrow => { db with uids := db.uids ++ [⟨mrow.id, folder, v, u⟩] }

/-- AddMessageSyncInfo from sync/message.go: upsert the messages row,
then insert-or-ignore a uids row for every binding in info.UIDs. -/
def addMessageSyncInfo (db : SyncDB) (info : MessageInfo)
    (tags : List String) : SyncDB :=
  let tagStr := goJoinComma tags
  let db1 := upsertMessage db info.MessageID tagStr
  info.UIDs.foldl
    (fun d uid => insertUid d uid.FolderName uid.UIDValidity uid.UID
      info.MessageID)
    db1

example :
    checkTags ⟨[], [], 1⟩ "INBOX" "m" ["a"]
      = { MessageID := "m", WantedTags := ["a"], Created := true,
          AddedTags := ["a"], UIDs := [⟨"INBOX", 0, 0⟩] } := by decide

example : compareTags "a,b" ["b", "c"] = (["c"], ["a"]) := by decide

example : compareTags " a , ,b" ["b", "a"] = ([], []) := by decide

/-! ## Properties of the database operations -/

theorem upsertMessage_uids (db : SyncDB) (mid s : String) :
    (upsertMessage db mid s).uids = db.uids := by
  unfold upsertMessage
  split <;> rfl

theorem upsertMessage_exists (db : SyncDB) (mid s : String) :
    ∃ m ∈ (upsertMessage db mid s).messages, m.messageid = mid := by
  unfold upsertMessage
  by_cases h : db.messages.any (fun r => r.messageid = mid)
  · rw [if_pos h]
    obtain ⟨r, hr, hrm⟩ := List.any_eq_true.mp h
    refine ⟨{ r with tags := s }, ?_, ?_⟩
    · refine List.mem_map.mpr ⟨r, hr, ?_⟩
      rw [if_pos (of_decide_eq_true hrm)]
    · simpa using hrm
  · rw [if_neg h]
    exact ⟨⟨db.nextId, mid, s⟩, by simp, rfl⟩

theorem upsertMessage_tags (db : SyncDB) (mid s : String) :
    ∀ m ∈ (upsertMessage db mid s).messages, m.messageid = mid → m.tags = s := by
  unfold upsertMessage
  by_cases h : db.messages.any (fun r => r.messageid = mid)
  · rw [if_pos h]
    intro m hm hmid
    simp only [List.mem_map] at hm
    obtain ⟨r, _, hr⟩ := hm
    by_cases hrm : r.messageid = mid
    · rw [if_pos (by simpa using hrm)] at hr
      rw [← hr]
    · rw [if_neg (by simpa using hrm)] at hr
      exact absurd (hr ▸ hmid) hrm
  · rw [if_neg h]
    intro m hm hmid
    simp only [List.mem_append, List.mem_singleton] at hm
    rcases hm with hm | rfl
    · exact absurd (List.any_eq_true.mpr ⟨m, hm, by simpa using hmid⟩) h
    · rfl

theorem upsertMessage_id_mem (db : SyncDB) (mid s : String) :
    ∀ m ∈ db.messages, ∃ m' ∈ (upsertMessage db mid s).messages,
      m'.id = m.id ∧ m'.messageid = m.messageid := by
  unfold upsertMessage
  by_cases h : db.messages.any (fun r => r.messageid = mid)
  · rw [if_pos h]
    intro m hm
    by_cases hmid : m.messageid = mid
    · refine ⟨{ m with tags := s }, ?_, rfl, rfl⟩
      exact List.mem_map.mpr ⟨m, hm, by rw [if_pos (by simpa using hmid)]⟩
    · refine ⟨m, ?_, rfl, rfl⟩
      exact List.mem_map.mpr ⟨m, hm, by rw [if_neg (by simpa using hmid)]⟩
  · rw [if_neg h]
    intro m hm
    exact ⟨m, by simp [hm], rfl, rfl⟩

theorem insertUid_messages (db : SyncDB) (f : String) (v u : Int)
    (mid : String) : (insertUid db f v u mid).messages = db.messages := by
  unfold insertUid
  split
  · rfl
  · cases messagesFind db mid <;> rfl

theorem insertUid_uids_mono (db : SyncDB) (f : String) (v u : Int)
    (mid : String) :
    ∃ t, (insertUid db f v u mid).uids = db.uids ++ t := by
  unfold insertUid
  split
  · exact ⟨[], by simp⟩
  · cases messagesFind db mid with
    | none => exact ⟨[], by simp⟩
    | some mrow => exact ⟨_, rfl⟩

theorem foldInsert_messages (mid : String) :
    ∀ (uids : List UID) (db : SyncDB),
      (uids.foldl
        (fun d uid => insertUid d uid.FolderName uid.UIDValidity uid.UID mid)
        db).messages = db.messages
  | [], _ => rfl
  | u :: rest, db => by
    rw [List.foldl_cons, foldInsert_messages mid rest _, insertUid_messages]

theorem foldInsert_uids_mono (mid : String) :
    ∀ (uids : List UID) (db : SyncDB),
      ∃ t, (uids.foldl
        (fun d uid => insertUid d uid.FolderName uid.UIDValidity uid.UID mid)
        db).uids = db.uids ++ t
  | [], db => ⟨[], by simp⟩
  | u :: rest, db => by
    rw [List.foldl_cons]
    obtain ⟨t₁, h₁⟩ := insertUid_uids_mono db u.FolderName u.UIDValidity u.UID mid
    obtain ⟨t₂, h₂⟩ := foldInsert_uids_mono mid rest
      (insertUid db u.FolderName u.UIDValidity u.UID mid)
    exact ⟨t₁ ++ t₂, by rw [h₂, h₁, List.append_assoc]⟩

theorem addMessageSyncInfo_messages_eq (db : SyncDB) (info : MessageInfo)
    (tags : List String) :
    (addMessageSyncInfo db info tags).messages
      = (upsertMessage db info.MessageID (goJoinComma tags)).messages := by
  unfold addMessageSyncInfo
  exact foldInsert_messages info.MessageID info.UIDs _

theorem addMessageSyncInfo_uids_mono (db : SyncDB) (info : MessageInfo)
    (tags : List String) :
    ∃ t, (addMessageSyncInfo db info tags).uids = db.uids ++ t := by
  unfold addMessageSyncInfo
  obtain ⟨t, h⟩ := foldInsert_uids_mono info.MessageID info.UIDs
    (upsertMessage db info.MessageID (goJoinComma tags))
  exact ⟨t, by rw [h, upsertMessage_uids]⟩

theorem mem_checkTagsRows {db : SyncDB} {m : String} {p : String × UidsRow} :
    p ∈ checkTagsRows db m ↔
      ∃ mrow ∈ db.messages, mrow.messageid = m ∧
        p.2 ∈ db.uids ∧ p.2.message_id = mrow.id ∧ p.1 = mrow.tags := by
  unfold checkTagsRows
  simp only [List.mem_flatMap, List.mem_filter, List.mem_map,
    decide_eq_true_eq]
  constructor
  · rintro ⟨mrow, ⟨hm, hmid⟩, u, ⟨hu, hum⟩, hp⟩
    subst hp
    exact ⟨mrow, hm, hmid, hu, hum, rfl⟩
  · rintro ⟨mrow, hm, hmid, hu, hum, hp⟩
    refine ⟨mrow, ⟨hm, hmid⟩, p.2, ⟨hu, hum⟩, ?_⟩
    rw [← hp]

/-- The compareTags round trip: comparing a comma-join of w against w
itself yields an empty diff, provided no tag contains a comma and the
trimmed non-empty entries of w are distinct. -/
theorem compareTags_join_self (w : List String)
    (hcomma : ∀ t ∈ w, ',' ∉ t.data)
    (hnodup : (trimmedNonempty w).Nodup) :
    compareTags (goJoinComma w) w = ([], []) := by
  have hmk : mkDbMap (goJoinComma w) = trimmedNonempty w := by
    cases w with
    | nil => decide
    | cons a rest =>
      have hsplit : goSplitComma (goJoinComma (a :: rest)) = a :: rest :=
        goSplit_goJoin (by simp) hcomma
      have hst : splitTrim (goJoinComma (a :: rest))
          = trimmedNonempty (a :: rest) := by
        unfold splitTrim
        rw [hsplit]
      rw [mkDbMap_eq_of_nodup (by rw [hst]; exact hnodup), hst]
  unfold compareTags
  rw [hmk, comparePass w _ [] hnodup hnodup]
  have hfilter : (trimmedNonempty w).filter
      (fun x => x ∉ trimmedNonempty w) = [] :=
    List.filter_eq_nil_iff.mpr (fun a ha => by simp [ha])
  simp [hfilter]

theorem checkTags_messageID (db : SyncDB) (f m : String) (w : List String) :
    (checkTags db f m w).MessageID = m := by
  unfold checkTags
  split <;> rfl

theorem checkTags_created_uids (db : SyncDB) (f m : String)
    (w : List String) (h : (checkTagsRows db m).getLast? = none) :
    (checkTags db f m w).UIDs = [⟨f, 0, 0⟩]
      ∧ (checkTags db f m w).Created = true := by
  unfold checkTags
  rw [h]
  exact ⟨rfl, rfl⟩

/-- After AddMessageSyncInfo(info, tags), every messages row whose
messageid equals info.MessageID carries the comma-join of tags. -/
theorem addMessageSyncInfo_tags (db : SyncDB) (info : MessageInfo)
    (tags : List String) :
    ∀ mrow ∈ (addMessageSyncInfo db info tags).messages,
      mrow.messageid = info.MessageID → mrow.tags = goJoinComma tags := by
  rw [addMessageSyncInfo_messages_eq]
  exact upsertMessage_tags db info.MessageID (goJoinComma tags)

theorem checkTags_notCreated (db : SyncDB) (f m : String) (w : List String)
    (last : String × UidsRow)
    (h : (checkTagsRows db m).getLast? = some last) :
    checkTags db f m w =
      { MessageID := m, WantedTags := w,
        UIDs := (checkTagsRows db m).map
          (fun r => ⟨r.2.foldername, r.2.uidvalidity, r.2.uid⟩),
        AddedTags := (compareTags last.1 w).1,
        RemovedTags := (compareTags last.1 w).2 } := by
  unfold checkTags
  rw [h]

/-- After the CheckTags/AddMessageSyncInfo sequence, the join used by a
second CheckTags call is non-empty: the message is stored together with
at least one uids binding (for an unknown message this needs the stub
slot (uidvalidity, uid) = (0, 0) to be free, otherwise the
ON CONFLICT DO NOTHING insert is dropped). -/
theorem checkTagsRows_addInfo_ne_nil (db : SyncDB) (f m : String)
    (w : List String)
    (hstub : (checkTags db f m w).Created = true →
      ∀ r ∈ db.uids, ¬(r.uidvalidity = 0 ∧ r.uid = 0)) :
    checkTagsRows (addMessageSyncInfo db (checkTags db f m w) w) m ≠ [] := by
  cases hgl : (checkTagsRows db m).getLast? with
  | some last =>
    -- known message: its old uids rows survive, its messages row is
    -- updated in place (same id, same messageid)
    have hmem := List.mem_of_mem_getLast? hgl
    obtain ⟨mrow, hm, hmid, hu, hum, _⟩ := mem_checkTagsRows.mp hmem
    obtain ⟨mrow', hm', hid', hmid'⟩ :=
      upsertMessage_id_mem db (checkTags db f m w).MessageID
        (goJoinComma w) mrow hm
    obtain ⟨t, ht⟩ := addMessageSyncInfo_uids_mono db (checkTags db f m w) w
    apply List.ne_nil_of_mem (a := (mrow'.tags, last.2))
    refine mem_checkTagsRows.mpr ⟨mrow', ?_, ?_, ?_, ?_, rfl⟩
    · rw [addMessageSyncInfo_messages_eq]
      exact hm'
    · rw [hmid', hmid]
    · rw [ht]
      exact List.mem_append_left t hu
    · rw [hid']
      exact hum
  | none =>
    -- unknown message: the stub binding (f, 0, 0) is inserted
    obtain ⟨hUIDs, hCreated⟩ := checkTags_created_uids db f m w hgl
    have hMID := checkTags_messageID db f m w
    have hstub' := hstub hCreated
    have hdb' : addMessageSyncInfo db (checkTags db f m w) w
        = insertUid (upsertMessage db m (goJoinComma w)) f 0 0 m := by
      unfold addMessageSyncInfo
      rw [hUIDs, hMID]
      rfl
    rw [hdb']
    have huids1 : (upsertMessage db m (goJoinComma w)).uids = db.uids :=
      upsertMessage_uids db m (goJoinComma w)
    have hany : ((upsertMessage db m (goJoinComma w)).uids.any
        (fun r => r.uidvalidity = 0 ∧ r.uid = 0)) = false := by
      rw [huids1]
      rw [List.any_eq_false]
      intro r hr
      simpa using hstub' r hr
    obtain ⟨mrow1, hfind⟩ : ∃ mrow1,
        messagesFind (upsertMessage db m (goJoinComma w)) m = some mrow1 := by
      obtain ⟨mr, hmr, hmrid⟩ := upsertMessage_exists db m (goJoinComma w)
      have : (messagesFind (upsertMessage db m (goJoinComma w)) m).isSome := by
        unfold messagesFind
        rw [List.find?_isSome]
        exact ⟨mr, hmr, by simpa using hmrid⟩
      exact Option.isSome_iff_exists.mp this
    have hmem1 : mrow1 ∈ (upsertMessage db m (goJoinComma w)).messages :=
      List.mem_of_find?_eq_some hfind
    have hmid1 : mrow1.messageid = m := by
      have := List.find?_some hfind
      simpa using this
    have hins : insertUid (upsertMessage db m (goJoinComma w)) f 0 0 m
        = { upsertMessage db m (goJoinComma w) with
            uids := (upsertMessage db m (goJoinComma w)).uids
              ++ [⟨mrow1.id, f, 0, 0⟩] } := by
      unfold insertUid
      rw [if_neg (by rw [hany]; exact Bool.false_ne_true), hfind]
    rw [hins]
    apply List.ne_nil_of_mem (a := (mrow1.tags, (⟨mrow1.id, f, 0, 0⟩ : UidsRow)))
    refine mem_checkTagsRows.mpr ⟨mrow1, hmem1, hmid1, ?_, rfl, rfl⟩
    exact List.mem_append_right _ (List.mem_singleton_self _)

/-- compareTags in closed form, assuming the trimmed non-empty wanted
entries are distinct. -/
theorem compareTags_eq (tags : String) (w : List String)
    (hnodup : (trimmedNonempty w).Nodup) :
    compareTags tags w =
      ((trimmedNonempty w).filter (fun x => x ∉ mkDbMap tags),
       (mkDbMap tags).filter (fun x => x ∉ trimmedNonempty w)) := by
  unfold compareTags
  rw [comparePass w (mkDbMap tags) [] (nodup_mkDbMap tags) hnodup]
  simp

/-! ## Claims about the sync state store -/

/-- Claim C1, as stated, fails: with an empty database the sequence
CheckTags; AddMessageSyncInfo; CheckTags for wantedTags = ["a", "a"]
leaves AddedTags = ["a"] in the second check. The stored string "a,a"
dedups to the set \x7ba\x7d, and the second occurrence of "a" in the
wanted list no longer finds its key in dbMap (compareTags deletes the
key at the first occurrence), so it is re-added. -/
theorem checkTags_roundtrip_duplicate_cex :
    (checkTags
      (addMessageSyncInfo ⟨[], [], 1⟩
        (checkTags ⟨[], [], 1⟩ "INBOX" "mid" ["a", "a"]) ["a", "a"])
      "INBOX" "mid" ["a", "a"]).AddedTags = ["a"] := by decide

/-- Claim C1 (amended): for every database state, folder f, message-id m
and wanted tag list w whose entries contain no comma and whose trimmed
non-empty entries are pairwise distinct, and such that the stub slot
(uidvalidity, uid) = (0, 0) of the uids table is free whenever the first
check reports Created: after CheckTags(f, m, w) and AddMessageSyncInfo
with the returned info and w, a second CheckTags(f, m, w) returns empty
AddedTags and RemovedTags. -/
theorem checkTags_roundtrip_after_add (db : SyncDB) (f m : String)
    (w : List String)
    (hcomma : ∀ t ∈ w, ',' ∉ t.data)
    (hnodup : (trimmedNonempty w).Nodup)
    (hstub : (checkTags db f m w).Created = true →
      ∀ r ∈ db.uids, ¬(r.uidvalidity = 0 ∧ r.uid = 0)) :
    (checkTags (addMessageSyncInfo db (checkTags db f m w) w) f m w).AddedTags
        = []
    ∧ (checkTags (addMessageSyncInfo db (checkTags db f m w) w) f m
        w).RemovedTags = [] := by
  have hne := checkTagsRows_addInfo_ne_nil db f m w hstub
  obtain ⟨last, hlast⟩ : ∃ l,
      (checkTagsRows (addMessageSyncInfo db (checkTags db f m w) w)
        m).getLast? = some l := by
    cases hgl : (checkTagsRows (addMessageSyncInfo db (checkTags db f m w) w)
        m).getLast? with
    | none => exact absurd (List.getLast?_eq_none_iff.mp hgl) hne
    | some l => exact ⟨l, rfl⟩
  have hmem := List.mem_of_mem_getLast? hlast
  obtain ⟨mrow, hm, hmid, _, _, hfst⟩ := mem_checkTagsRows.mp hmem
  have htag : last.1 = goJoinComma w := by
    rw [hfst]
    apply addMessageSyncInfo_tags db (checkTags db f m w) w mrow hm
    rw [checkTags_messageID db f m w]
    exact hmid
  rw [checkTags_notCreated _ f m w last hlast, htag,
    compareTags_join_self w hcomma hnodup]
  exact ⟨rfl, rfl⟩

theorem checkTags_roundtrip_after_add_witness :
    (checkTags (addMessageSyncInfo ⟨[], [], 1⟩
        (checkTags ⟨[], [], 1⟩ "INBOX" "mid" ["a", "b"]) ["a", "b"])
      "INBOX" "mid" ["a", "b"]).AddedTags = []
    ∧ (checkTags (addMessageSyncInfo ⟨[], [], 1⟩
        (checkTags ⟨[], [], 1⟩ "INBOX" "mid" ["a", "b"]) ["a", "b"])
      "INBOX" "mid" ["a", "b"]).RemovedTags = [] :=
  checkTags_roundtrip_after_add ⟨[], [], 1⟩ "INBOX" "mid" ["a", "b"]
    (by decide) (by decide) (by decide)

/-- Claim C5, as stated, fails: for stored tags "a" and wanted list
["a", "a"], the tag "a" ends up in AddedTags even though it is in the
stored set, because the duplicate wanted entry is processed after the
dbMap key has been deleted. -/
theorem compareTags_duplicate_cex :
    "a" ∈ (compareTags "a" ["a", "a"]).1 ∧ "a" ∈ splitTrim "a" := by decide

/-- Claim C5 (amended): for every stored tag string and wanted list
whose trimmed non-empty entries are pairwise distinct, AddedTags is
exactly the set of trimmed non-empty wanted entries not in the stored
set, and RemovedTags exactly the set of trimmed non-empty stored
entries not among the trimmed wanted entries; membership is
case-sensitive string equality and whitespace-only or empty entries
contribute nothing (trimming and dropping of empties is built into
trimmedNonempty and splitTrim). -/
theorem compareTags_diff_spec (tags : String) (w : List String)
    (hnodup : (trimmedNonempty w).Nodup) :
    (∀ t, t ∈ (compareTags tags w).1 ↔
        t ∈ trimmedNonempty w ∧ t ∉ splitTrim tags)
    ∧ (∀ t, t ∈ (compareTags tags w).2 ↔
        t ∈ splitTrim tags ∧ t ∉ trimmedNonempty w) := by
  rw [compareTags_eq tags w hnodup]
  constructor
  · intro t
    simp only [List.mem_filter, decide_eq_true_eq]
    rw [mem_mkDbMap]
  · intro t
    simp only [List.mem_filter, decide_eq_true_eq]
    rw [mem_mkDbMap]

theorem compareTags_diff_spec_witness :
    ("c" ∈ (compareTags "a,b" ["b", "c"]).1 ↔
      "c" ∈ trimmedNonempty ["b", "c"] ∧ "c" ∉ splitTrim "a,b")
    ∧ ("a" ∈ (compareTags "a,b" ["b", "c"]).2 ↔
      "a" ∈ splitTrim "a,b" ∧ "a" ∉ trimmedNonempty ["b", "c"]) :=
  ⟨(compareTags_diff_spec "a,b" ["b", "c"] (by decide)).1 "c",
   (compareTags_diff_spec "a,b" ["b", "c"] (by decide)).2 "a"⟩

/-- Claim C6: if the message-id m has no row in the sync database,
CheckTags(f, m, w) returns (without error; the query itself cannot fail
in the model) a MessageInfo with Created = true, AddedTags = w, and a
single UID binding stub with FolderName = f and zero UIDValidity and
UID. -/
theorem checkTags_unknown_message (db : SyncDB) (f m : String)
    (w : List String) (h : ∀ r ∈ db.messages, r.messageid ≠ m) :
    (checkTags db f m w).Created = true
    ∧ (checkTags db f m w).AddedTags = w
    ∧ (checkTags db f m w).UIDs = [⟨f, 0, 0⟩] := by
  have hrows : checkTagsRows db m = [] := by
    unfold checkTagsRows
    have hf : db.messages.filter (fun r => r.messageid = m) = [] :=
      List.filter_eq_nil_iff.mpr (fun r hr => by simpa using h r hr)
    rw [hf]
    rfl
  have hgl : (checkTagsRows db m).getLast? = none := by
    rw [hrows]
    rfl
  unfold checkTags
  rw [hgl]
  exact ⟨rfl, rfl, rfl⟩

theorem checkTags_unknown_message_witness :
    (checkTags ⟨[⟨1, "other", "x"⟩], [⟨1, "F", 3, 4⟩], 2⟩
        "INBOX" "mid" ["a"]).Created = true
    ∧ (checkTags ⟨[⟨1, "other", "x"⟩], [⟨1, "F", 3, 4⟩], 2⟩
        "INBOX" "mid" ["a"]).AddedTags = ["a"]
    ∧ (checkTags ⟨[⟨1, "other", "x"⟩], [⟨1, "F", 3, 4⟩], 2⟩
        "INBOX" "mid" ["a"]).UIDs = [⟨"INBOX", 0, 0⟩] :=
  checkTags_unknown_message ⟨[⟨1, "other", "x"⟩], [⟨1, "F", 3, 4⟩], 2⟩
    "INBOX" "mid" ["a"] (by decide)

/-- SELECT the uids row with the given (uidvalidity, uid) key (the
unique index makes any match unique on states SQLite can reach; the
model returns the first). -/
def uidsLookup (db : SyncDB) (v u : Int) : Option UidsRow :=
  db.uids.find? (fun r => r.uidvalidity = v ∧ r.uid = u)

/-- Claim C10: AddMessageSyncInfo never modifies or deletes a
pre-existing uids row: every uids row of the old state survives
unchanged, and the row found for a (uidvalidity, uid) key afterwards is
the one found before — even when the call supplies a different message
or folder for that pair (the insert is ON CONFLICT DO NOTHING). -/
theorem addMessageSyncInfo_preserves_uids (db : SyncDB)
    (info : MessageInfo) (tags : List String) (v u : Int) (r : UidsRow)
    (h : uidsLookup db v u = some r) :
    uidsLookup (addMessageSyncInfo db info tags) v u = some r
    ∧ ∀ x ∈ db.uids, x ∈ (addMessageSyncInfo db info tags).uids := by
  obtain ⟨t, ht⟩ := addMessageSyncInfo_uids_mono db info tags
  constructor
  · unfold uidsLookup at h ⊢
    rw [ht, List.find?_append, h]
    rfl
  · intro x hx
    rw [ht]
    exact List.mem_append_left t hx

theorem addMessageSyncInfo_preserves_uids_witness :
    uidsLookup (addMessageSyncInfo ⟨[⟨1, "m", "t"⟩], [⟨1, "A", 2, 3⟩], 2⟩
        { MessageID := "m2", UIDs := [⟨"B", 2, 3⟩] } ["z"]) 2 3
      = some ⟨1, "A", 2, 3⟩
    ∧ ∀ x ∈ ([⟨1, "A", 2, 3⟩] : List UidsRow),
        x ∈ (addMessageSyncInfo ⟨[⟨1, "m", "t"⟩], [⟨1, "A", 2, 3⟩], 2⟩
          { MessageID := "m2", UIDs := [⟨"B", 2, 3⟩] } ["z"]).uids :=
  addMessageSyncInfo_preserves_uids ⟨[⟨1, "m", "t"⟩], [⟨1, "A", 2, 3⟩], 2⟩
    { MessageID := "m2", UIDs := [⟨"B", 2, 3⟩] } ["z"] 2 3 ⟨1, "A", 2, 3⟩
    (by decide)

/-! ## Flag translator (imap/flags.go translateFlags) -/

/-- One iteration of the translateFlags loop. The Go switch handles the
five system flags, then the default branch reads flag[0] — which panics
on the empty string (modelled as none) — drops other backslash flags,
drops configured ignored keywords, and passes the rest through. The
output map is modelled as an insertion-ordered list of distinct keys. -/
def translateStep (ignored : List String) (st : List String × Bool)
    (flag : String) : Option (List String × Bool) :=
  if flag = "\\Seen" then some (st.1, true)
  else if flag = "\\Answered" then some (listInsert st.1 "replied", st.2)
  else if flag = "\\Deleted" then some (listInsert st.1 "deleted", st.2)
  else if flag = "\\Draft" then some (listInsert st.1 "draft", st.2)
  else if flag = "\\Flagged" then some (listInsert st.1 "flagged", st.2)
  else
    match flag.data with
    | [] => none
    | c :: _ =>
      if c = '\\' then some st
      else if flag ∈ ignored then some st
      else some (listInsert st.1 flag, st.2)

def translateAux (ignored : List String) :
    List String → List String × Bool → Option (List String × Bool)
  | [], st => some st
  | flag :: rest, st =>
    match translateStep ignored st flag with
    | none => none
    | some st1 => translateAux ignored rest st1

/-- translateFlags from the IMAP handler: translates an IMAP flag list
into a tag set plus the seen flag, appending the client-side tag
unread when seen is false. -/
def translateFlags (ignored : List String) (imapFlags : List String) :
    Option (List String × Bool) :=
  match translateAux ignored imapFlags ([], false) with
  | none => none
  | some (out, seen) =>
    some (if seen then out else listInsert out "unread", seen)

/-- A tag produced by the system-flag arms of the switch. -/
def sysMappedTag (flags : List String) (t : String) : Prop :=
  (t = "replied" ∧ "\\Answered" ∈ flags)
  ∨ (t = "deleted" ∧ "\\Deleted" ∈ flags)
  ∨ (t = "draft" ∧ "\\Draft" ∈ flags)
  ∨ (t = "flagged" ∧ "\\Flagged" ∈ flags)

/-- A keyword passed through verbatim: present in the flag list, not
starting with a backslash, not configured as ignored. -/
def keywordTag (ignored flags : List String) (t : String) : Prop :=
  t ∈ flags ∧ t.data.head? ≠ some '\\' ∧ t ∉ ignored

theorem sysMappedTag_nil (t : String) : ¬sysMappedTag [] t := by
  unfold sysMappedTag
  simp

theorem sysMappedTag_cons_other {f : String} {rest : List String}
    {t : String} (h2 : f ≠ "\\Answered") (h3 : f ≠ "\\Deleted")
    (h4 : f ≠ "\\Draft") (h5 : f ≠ "\\Flagged") :
    sysMappedTag (f :: rest) t ↔ sysMappedTag rest t := by
  have h2s : ¬("\\Answered" = f) := fun hh => h2 hh.symm
  have h3s : ¬("\\Deleted" = f) := fun hh => h3 hh.symm
  have h4s : ¬("\\Draft" = f) := fun hh => h4 hh.symm
  have h5s : ¬("\\Flagged" = f) := fun hh => h5 hh.symm
  unfold sysMappedTag
  simp [List.mem_cons, h2s, h3s, h4s, h5s]

theorem keywordTag_cons_backslash {f : String} {rest ignored : List String}
    {t : String} (hf : f.data.head? = some '\\') :
    keywordTag ignored (f :: rest) t ↔ keywordTag ignored rest t := by
  unfold keywordTag
  simp only [List.mem_cons]
  constructor
  · rintro ⟨(rfl | ht), hh, hi⟩
    · exact absurd hf hh
    · exact ⟨ht, hh, hi⟩
  · rintro ⟨ht, hh, hi⟩
    exact ⟨Or.inr ht, hh, hi⟩

theorem keywordTag_cons_ignored {f : String} {rest ignored : List String}
    {t : String} (hf : f ∈ ignored) :
    keywordTag ignored (f :: rest) t ↔ keywordTag ignored rest t := by
  unfold keywordTag
  simp only [List.mem_cons]
  constructor
  · rintro ⟨(rfl | ht), hh, hi⟩
    · exact absurd hf hi
    · exact ⟨ht, hh, hi⟩
  · rintro ⟨ht, hh, hi⟩
    exact ⟨Or.inr ht, hh, hi⟩

theorem keywordTag_cons_self {f : String} {rest ignored : List String}
    {t : String} (hh : f.data.head? ≠ some '\\') (hi : f ∉ ignored) :
    keywordTag ignored (f :: rest) t ↔ (t = f ∨ keywordTag ignored rest t) := by
  unfold keywordTag
  simp only [List.mem_cons]
  constructor
  · rintro ⟨(rfl | ht), h2, h3⟩
    · exact Or.inl rfl
    · exact Or.inr ⟨ht, h2, h3⟩
  · rintro (rfl | ⟨ht, h2, h3⟩)
    · exact ⟨Or.inl rfl, hh, hi⟩
    · exact ⟨Or.inr ht, h2, h3⟩

set_option maxHeartbeats 1600000 in
/-- Characterization of the translateFlags loop: for non-empty flags it
cannot panic, the seen output records exactly whether a Seen flag was
processed, and the output keys are the initial keys plus the mapped
system tags plus the surviving keywords. -/
theorem translateAux_spec (ignored : List String) :
    ∀ (flags : List String) (out : List String) (seen : Bool),
      (∀ f ∈ flags, f ≠ "") →
      ∃ st, translateAux ignored flags (out, seen) = some st
        ∧ (st.2 = true ↔ (seen = true ∨ "\\Seen" ∈ flags))
        ∧ (∀ t, t ∈ st.1 ↔
            (t ∈ out ∨ sysMappedTag flags t ∨ keywordTag ignored flags t))
  | [], out, seen, _ => by
    refine ⟨(out, seen), rfl, by simp, fun t => ?_⟩
    have hs := sysMappedTag_nil t
    unfold keywordTag
    simp [hs]
  | f :: rest, out, seen, hne => by
    have hrest : ∀ x ∈ rest, x ≠ "" :=
      fun x hx => hne x (List.mem_cons_of_mem _ hx)
    by_cases h1 : f = "\\Seen"
    · subst h1
      obtain ⟨st, hst, hseen, hmem⟩ := translateAux_spec ignored rest out true hrest
      have hstep : translateStep ignored (out, seen) "\\Seen"
          = some (out, true) := by
        unfold translateStep
        simp
      refine ⟨st, ?_, ?_, fun t => ?_⟩
      · simp only [translateAux]
        rw [hstep]
        exact hst
      · rw [hseen]
        simp [List.mem_cons]
      · rw [hmem t,
          sysMappedTag_cons_other (by decide) (by decide) (by decide) (by decide),
          keywordTag_cons_backslash (by decide)]
    · by_cases h2 : f = "\\Answered"
      · subst h2
        obtain ⟨st, hst, hseen, hmem⟩ :=
          translateAux_spec ignored rest (listInsert out "replied") seen hrest
        have hstep : translateStep ignored (out, seen) "\\Answered"
            = some (listInsert out "replied", seen) := by
          unfold translateStep
          simp
        refine ⟨st, ?_, ?_, fun t => ?_⟩
        · simp only [translateAux]
          rw [hstep]
          exact hst
        · rw [hseen]
          simp [List.mem_cons]
        · rw [hmem t, keywordTag_cons_backslash (by decide)]
          have hsys : sysMappedTag ("\\Answered" :: rest) t ↔
              (t = "replied" ∨ sysMappedTag rest t) := by
            unfold sysMappedTag
            simp only [List.mem_cons]
            simp
            try tauto
          rw [hsys, mem_listInsert]
          tauto
      · by_cases h3 : f = "\\Deleted"
        · subst h3
          obtain ⟨st, hst, hseen, hmem⟩ :=
            translateAux_spec ignored rest (listInsert out "deleted") seen hrest
          have hstep : translateStep ignored (out, seen) "\\Deleted"
              = some (listInsert out "deleted", seen) := by
            unfold translateStep
            simp
          refine ⟨st, ?_, ?_, fun t => ?_⟩
          · simp only [translateAux]
            rw [hstep]
            exact hst
          · rw [hseen]
            simp [List.mem_cons]
          · rw [hmem t, keywordTag_cons_backslash (by decide)]
            have hsys : sysMappedTag ("\\Deleted" :: rest) t ↔
                (t = "deleted" ∨ sysMappedTag rest t) := by
              unfold sysMappedTag
              simp only [List.mem_cons]
              simp
              try tauto
            rw [hsys, mem_listInsert]
            tauto
        · by_cases h4 : f = "\\Draft"
          · subst h4
            obtain ⟨st, hst, hseen, hmem⟩ :=
              translateAux_spec ignored rest (listInsert out "draft") seen hrest
            have hstep : translateStep ignored (out, seen) "\\Draft"
                = some (listInsert out "draft", seen) := by
              unfold translateStep
              simp
            refine ⟨st, ?_, ?_, fun t => ?_⟩
            · simp only [translateAux]
              rw [hstep]
              exact hst
            · rw [hseen]
              simp [List.mem_cons]
            · rw [hmem t, keywordTag_cons_backslash (by decide)]
              have hsys : sysMappedTag ("\\Draft" :: rest) t ↔
                  (t = "draft" ∨ sysMappedTag rest t) := by
                unfold sysMappedTag
                simp only [List.mem_cons]
                simp
                try tauto
              rw [hsys, mem_listInsert]
              tauto
          · by_cases h5 : f = "\\Flagged"
            · subst h5
              obtain ⟨st, hst, hseen, hmem⟩ :=
                translateAux_spec ignored rest (listInsert out "flagged") seen hrest
              have hstep : translateStep ignored (out, seen) "\\Flagged"
                  = some (listInsert out "flagged", seen) := by
                unfold translateStep
                simp
              refine ⟨st, ?_, ?_, fun t => ?_⟩
              · simp only [translateAux]
                rw [hstep]
                exact hst
              · rw [hseen]
                simp [List.mem_cons]
              · rw [hmem t, keywordTag_cons_backslash (by decide)]
                have hsys : sysMappedTag ("\\Flagged" :: rest) t ↔
                    (t = "flagged" ∨ sysMappedTag rest t) := by
                  unfold sysMappedTag
                  simp only [List.mem_cons]
                  simp
                  try tauto
                rw [hsys, mem_listInsert]
                tauto
            · -- default branch of the switch
              have hfne : f ≠ "" := hne f (List.mem_cons_self _ _)
              have hd : f.data ≠ [] := by
                intro hcon
                exact hfne (by
                  have heta : f = String.mk f.data := rfl
                  rw [heta, hcon])
              obtain ⟨c, cs, hdata⟩ : ∃ c cs, f.data = c :: cs := by
                cases hcase : f.data with
                | nil => exact absurd hcase hd
                | cons c cs => exact ⟨c, cs, rfl⟩
              have hstep0 : translateStep ignored (out, seen) f
                  = (match f.data with
                    | [] => none
                    | c :: _ =>
                      if c = '\\' then some (out, seen)
                      else if f ∈ ignored then some (out, seen)
                      else some (listInsert out f, seen)) := by
                unfold translateStep
                rw [if_neg h1, if_neg h2, if_neg h3, if_neg h4, if_neg h5]
              by_cases hc : c = '\\'
              · -- other backslash flag: dropped
                obtain ⟨st, hst, hseen, hmem⟩ :=
                  translateAux_spec ignored rest out seen hrest
                refine ⟨st, ?_, ?_, fun t => ?_⟩
                · simp only [translateAux]
                  rw [hstep0, hdata]
                  simp only [if_pos hc]
                  exact hst
                · rw [hseen]
                  have hns : ¬("\\Seen" = f) := fun hh => h1 hh.symm
                  simp [List.mem_cons, hns]
                · rw [hmem t, sysMappedTag_cons_other h2 h3 h4 h5,
                    keywordTag_cons_backslash (by rw [hdata, hc]; rfl)]
              · by_cases hig : f ∈ ignored
                · -- ignored keyword: dropped
                  obtain ⟨st, hst, hseen, hmem⟩ :=
                    translateAux_spec ignored rest out seen hrest
                  refine ⟨st, ?_, ?_, fun t => ?_⟩
                  · simp only [translateAux]
                    rw [hstep0, hdata]
                    simp only [if_neg hc, if_pos hig]
                    exact hst
                  · rw [hseen]
                    have hns : ¬("\\Seen" = f) := fun hh => h1 hh.symm
                    simp [List.mem_cons, hns]
                  · rw [hmem t, sysMappedTag_cons_other h2 h3 h4 h5,
                      keywordTag_cons_ignored hig]
                · -- surviving keyword: passed through verbatim
                  obtain ⟨st, hst, hseen, hmem⟩ :=
                    translateAux_spec ignored rest (listInsert out f) seen hrest
                  refine ⟨st, ?_, ?_, fun t => ?_⟩
                  · simp only [translateAux]
                    rw [hstep0, hdata]
                    simp only [if_neg hc, if_neg hig]
                    exact hst
                  · rw [hseen]
                    have hns : ¬("\\Seen" = f) := fun hh => h1 hh.symm
                    simp [List.mem_cons, hns]
                  · rw [hmem t, sysMappedTag_cons_other h2 h3 h4 h5,
                      keywordTag_cons_self
                        (by rw [hdata]; simp [hc]) hig,
                      mem_listInsert]
                    tauto

/-- Claim C2, as stated, fails on the unread clause: for the flag list
[Seen, unread] with no ignored tags, the keyword unread passes through
verbatim, so the result contains the tag unread although seen is true —
the claimed iff between having the unread tag and seen being false does
not hold. -/
theorem translateFlags_unread_cex :
    translateFlags [] ["\\Seen", "unread"] = some (["unread"], true)
    ∧ ¬(("unread" ∈ (["unread"] : List String)) ↔ (true = false)) := by
  decide

/-- Claim C2 (amended): for every list of IMAP flags (non-empty strings;
the Go code indexes flag[0] and would panic on an empty flag),
translateFlags returns tags and seen such that seen is true iff Seen is
in the list; a tag is produced exactly when it is one of the four
mapped system tags (replied, deleted, draft, flagged with the
corresponding flag present), or a keyword of the list that does not
start with a backslash and is not configured ignored, or the tag unread
when seen is false. In particular the unread tag can also appear with
seen true, namely when unread itself is a non-ignored keyword of the
list. -/
theorem translateFlags_spec (ignored flags : List String)
    (hne : ∀ f ∈ flags, f ≠ "") :
    ∃ tags seen, translateFlags ignored flags = some (tags, seen)
      ∧ (seen = true ↔ "\\Seen" ∈ flags)
      ∧ (∀ t, t ∈ tags ↔
          (sysMappedTag flags t ∨ keywordTag ignored flags t
            ∨ (t = "unread" ∧ "\\Seen" ∉ flags))) := by
  obtain ⟨⟨out1, seen1⟩, hst, hseen, hmem⟩ :=
    translateAux_spec ignored flags [] false hne
  simp only at hseen hmem
  have hseen1 : seen1 = true ↔ "\\Seen" ∈ flags := by simpa using hseen
  refine ⟨if seen1 = true then out1 else listInsert out1 "unread", seen1,
    ?_, hseen1, ?_⟩
  · unfold translateFlags
    rw [hst]
  · intro t
    have hm := hmem t
    simp only [List.not_mem_nil, false_or] at hm
    by_cases hs : seen1 = true
    · rw [if_pos hs, hm]
      have hseenmem : "\\Seen" ∈ flags := hseen1.mp hs
      constructor
      · tauto
      · rintro (h | h | ⟨_, hcon⟩)
        · tauto
        · tauto
        · exact absurd hseenmem hcon
    · rw [if_neg hs, mem_listInsert, hm]
      have hnm : "\\Seen" ∉ flags := fun hcon => hs (hseen1.mpr hcon)
      constructor
      · rintro ((h | h) | rfl)
        · tauto
        · tauto
        · exact Or.inr (Or.inr ⟨rfl, hnm⟩)
      · rintro (h | h | ⟨rfl, _⟩)
        · tauto
        · tauto
        · tauto

theorem translateFlags_spec_witness :
    ∃ tags seen,
      translateFlags ["$MDNSent"] ["\\Answered", "$MDNSent", "todo"]
        = some (tags, seen)
      ∧ (seen = true ↔ "\\Seen" ∈ ["\\Answered", "$MDNSent", "todo"])
      ∧ (∀ t, t ∈ tags ↔
          (sysMappedTag ["\\Answered", "$MDNSent", "todo"] t
            ∨ keywordTag ["$MDNSent"] ["\\Answered", "$MDNSent", "todo"] t
            ∨ (t = "unread"
                ∧ "\\Seen" ∉ ["\\Answered", "$MDNSent", "todo"]))) :=
  translateFlags_spec ["$MDNSent"] ["\\Answered", "$MDNSent", "todo"]
    (by decide)

/-! ## Push path (imap/update.go) -/

/-- sync.Update: an embedded MessageInfo plus the local file path. -/
structure Update where
  info : MessageInfo
  Filename : String
  deriving DecidableEq

/-- A UID STORE command issued by updateUID: +FLAGS.SILENT when add is
true, -FLAGS.SILENT otherwise, on the single-UID sequence set. -/
structure StoreCmd where
  add : Bool
  uid : Int
  flags : List String
  deriving DecidableEq

/-- An APPEND command issued by createMessage. -/
structure AppendCmd where
  folder : String
  flags : List String
  deriving DecidableEq

/-- Environment oracles for the push path: the SELECT result per folder
(the reported UIDVALIDITY; none = network error), whether os.Open
succeeds, the SupportUidPlus answer (none = error), and the UIDPLUS
APPEND echo (none = error). Issued commands are collected in the
output; a network failure of a UID STORE aborts later steps but never
retracts an already issued command, which no claim here depends on. -/
structure PushEnv where
  select : String → Option Int
  openOk : Bool
  uidPlus : Option Bool
  appendRes : Option (Int × Int)

/-- updateUID from imap/update.go: SELECT the binding's folder, compare
UIDVALIDITY, then issue the add and remove UID STORE commands with the
ignored tags filtered out and empty lists skipped, and finally write
the wanted tag set back through AddMessageSyncInfo. -/
def updateUID (env : PushEnv) (ignored : List String) (db : SyncDB)
    (msgUpdate : Update) (uid : UID) :
    Except String Unit × List StoreCmd × SyncDB :=
  match env.select uid.FolderName with
  | none => (.error "select failed", [], db)
  | some validity =>
    if validity ≠ uid.UIDValidity then
      (.error ("mailbox " ++ uid.FolderName
        ++ " has new UIDValidity - currently unsupported"), [], db)
    else
      (.ok (),
       (if msgUpdate.info.AddedTags.filter (fun v => v ∉ ignored) = []
        then []
        else [⟨true, uid.UID,
          msgUpdate.info.AddedTags.filter (fun v => v ∉ ignored)⟩])
       ++ (if msgUpdate.info.RemovedTags.filter (fun v => v ∉ ignored) = []
        then []
        else [⟨false, uid.UID,
          msgUpdate.info.RemovedTags.filter (fun v => v ∉ ignored)⟩]),
       addMessageSyncInfo db msgUpdate.info msgUpdate.info.WantedTags)

/-- createMessage from imap/update.go: open the local file, require
UIDPLUS, APPEND the message with the AddedTags flag list, and record
the echoed binding unless the server returned zeros. -/
def createMessage (env : PushEnv) (db : SyncDB) (msgUpdate : Update)
    (uidInfo : UID) : Except String Unit × Option AppendCmd × SyncDB :=
  if env.openOk = false then (.error "open failed", none, db)
  else
    match env.uidPlus with
    | none => (.error "capability check failed", none, db)
    | some false =>
      (.error "server does not support UIDPLUS, which is currently required for pushing new messages to server",
       none, db)
    | some true =>
      match env.appendRes with
      | none =>
        (.error "append failed",
         some ⟨uidInfo.FolderName, msgUpdate.info.AddedTags⟩, db)
      | some (uidValidity, uid) =>
        if uidValidity = 0 ∨ uid = 0 then
          (.ok (), some ⟨uidInfo.FolderName, msgUpdate.info.AddedTags⟩, db)
        else
          (.ok (), some ⟨uidInfo.FolderName, msgUpdate.info.AddedTags⟩,
           addMessageSyncInfo db
             { msgUpdate.info with
               UIDs := [⟨uidInfo.FolderName, uidValidity, uid⟩] }
             msgUpdate.info.AddedTags)

/-- The loop of Update over all UID bindings: each binding is pushed by
updateUID and the first error aborts the remaining bindings. -/
def updateUIDLoop (env : PushEnv) (ignored : List String)
    (msgUpdate : Update) :
    List UID → SyncDB → Except String Unit × List StoreCmd × SyncDB
  | [], db => (.ok (), [], db)
  | u :: rest, db =>
    match updateUID env ignored db msgUpdate u with
    | (.error e, cmds, db1) => (.error e, cmds, db1)
    | (.ok _, cmds, db1) =>
      let r := updateUIDLoop env ignored msgUpdate rest db1
      (r.1, cmds ++ r.2.1, r.2.2)

/-- Update from imap/update.go: dispatch to createMessage for created
messages (Go indexes msgUpdate.UIDs[0], a panic when the list is
empty), skip when the diff is empty, and otherwise push every binding. -/
def updateMsg (env : PushEnv) (ignored : List String) (db : SyncDB)
    (msgUpdate : Update) :
    Except String Unit × List StoreCmd × Option AppendCmd × SyncDB :=
  if msgUpdate.info.Created = true then
    match msgUpdate.info.UIDs with
    | [] => (.error "panic: index out of range", [], none, db)
    | u :: _ =>
      let r := createMessage env db msgUpdate u
      (r.1, [], r.2.1, r.2.2)
  else if msgUpdate.info.AddedTags = [] ∧ msgUpdate.info.RemovedTags = []
  then (.ok (), [], none, db)
  else
    let r := updateUIDLoop env ignored msgUpdate msgUpdate.info.UIDs db
    (r.1, r.2.1, none, r.2.2)

/-- Every flag of every UID STORE command issued by a single updateUID
call comes from the diff lists and is not ignored. -/
theorem updateUID_cmds_flags (env : PushEnv) (ignored : List String)
    (db : SyncDB) (msgUpdate : Update) (uid : UID) :
    ∀ c ∈ (updateUID env ignored db msgUpdate uid).2.1, ∀ v ∈ c.flags,
      (v ∈ msgUpdate.info.AddedTags ∨ v ∈ msgUpdate.info.RemovedTags)
      ∧ v ∉ ignored := by
  unfold updateUID
  cases env.select uid.FolderName with
  | none => simp
  | some validity =>
    dsimp only
    by_cases hv : validity ≠ uid.UIDValidity
    · rw [if_pos hv]
      simp
    · rw [if_neg hv]
      intro c hc v hvc
      simp only [List.mem_append] at hc
      rcases hc with hc | hc
      · by_cases ha : msgUpdate.info.AddedTags.filter (fun v => v ∉ ignored) = []
        · rw [if_pos ha] at hc
          exact absurd hc (List.not_mem_nil c)
        · rw [if_neg ha] at hc
          rw [List.mem_singleton] at hc
          subst hc
          simp only [List.mem_filter, decide_eq_true_eq] at hvc
          exact ⟨Or.inl hvc.1, hvc.2⟩
      · by_cases hr : msgUpdate.info.RemovedTags.filter (fun v => v ∉ ignored) = []
        · rw [if_pos hr] at hc
          exact absurd hc (List.not_mem_nil c)
        · rw [if_neg hr] at hc
          rw [List.mem_singleton] at hc
          subst hc
          simp only [List.mem_filter, decide_eq_true_eq] at hvc
          exact ⟨Or.inr hvc.1, hvc.2⟩

theorem updateUIDLoop_cmds_flags (env : PushEnv) (ignored : List String)
    (msgUpdate : Update) :
    ∀ (uids : List UID) (db : SyncDB),
      ∀ c ∈ (updateUIDLoop env ignored msgUpdate uids db).2.1, ∀ v ∈ c.flags,
        (v ∈ msgUpdate.info.AddedTags ∨ v ∈ msgUpdate.info.RemovedTags)
        ∧ v ∉ ignored
  | [], db => by simp [updateUIDLoop]
  | u :: rest, db => by
    intro c hc
    unfold updateUIDLoop at hc
    cases hu : updateUID env ignored db msgUpdate u with
    | mk res rest1 =>
      cases res with
      | error e =>
        rw [hu] at hc
        simp only at hc
        have := updateUID_cmds_flags env ignored db msgUpdate u c
        rw [hu] at this
        exact this hc
      | ok r =>
        rw [hu] at hc
        simp only [List.mem_append] at hc
        rcases hc with hc | hc
        · have := updateUID_cmds_flags env ignored db msgUpdate u c
          rw [hu] at this
          exact this hc
        · exact updateUIDLoop_cmds_flags env ignored msgUpdate rest rest1.2 c hc

/-- A push environment whose SELECT reports UIDVALIDITY 1 everywhere. -/
def pushEnvOk : PushEnv := ⟨fun _ => some 1, true, some true, none⟩

/-- A push environment whose SELECT reports UIDVALIDITY 2 everywhere. -/
def pushEnvBad : PushEnv := ⟨fun _ => some 2, true, some true, none⟩

/-- A database holding one synchronized message m bound to
(INBOX, 1, 5) with an empty stored tag set. -/
def dbSample : SyncDB := ⟨[⟨1, "m", ""⟩], [⟨1, "INBOX", 1, 5⟩], 2⟩

/-- An update adding tag y where the wanted set also holds the
(ignored in the scenarios below) tag x. -/
def updIgnoredSample : Update :=
  { info :=
      { MessageID := "m", UIDs := [⟨"INBOX", 1, 5⟩],
        AddedTags := ["y"], WantedTags := ["x", "y"] },
    Filename := "f" }

/-- An update adding the tag unread. -/
def updUnreadSample : Update :=
  { info :=
      { MessageID := "m", UIDs := [⟨"INBOX", 1, 5⟩],
        AddedTags := ["unread"], WantedTags := ["unread"] },
    Filename := "f" }

/-- Claim C3, as stated, fails on its first half: updateUID writes the
full WantedTags list — including configured ignored tags — into the
tags column of the messages table through AddMessageSyncInfo. Here the
ignored tag x ends up in the stored tag string x,y. -/
theorem updateUID_ignored_stored_cex :
    ((updateUID pushEnvOk ["x"] dbSample updIgnoredSample
        ⟨"INBOX", 1, 5⟩).2.2).messages = [⟨1, "m", "x,y"⟩]
    ∧ "x" ∈ splitTrim "x,y" := by
  constructor
  · rfl
  · decide

/-- Claim C3 (amended): for every tag t in the ignored_tags list, t
never appears in the flag list of any UID STORE command issued by the
push path (Update / updateUID); the first half of the original claim —
that t never reaches the tags column of the messages table — is false,
since updateUID stores WantedTags unfiltered. -/
theorem updateMsg_ignored_never_transmitted (env : PushEnv)
    (ignored : List String) (db : SyncDB) (msgUpdate : Update)
    (t : String) (ht : t ∈ ignored) (c : StoreCmd)
    (hc : c ∈ (updateMsg env ignored db msgUpdate).2.1) :
    t ∉ c.flags := by
  intro hmem
  unfold updateMsg at hc
  by_cases hcr : msgUpdate.info.Created = true
  · rw [if_pos hcr] at hc
    rcases hu : msgUpdate.info.UIDs with _ | ⟨u, rest⟩
    · rw [hu] at hc
      dsimp only at hc
      exact absurd hc (List.not_mem_nil c)
    · rw [hu] at hc
      dsimp only at hc
      exact absurd hc (List.not_mem_nil c)
  · rw [if_neg hcr] at hc
    by_cases hdiff : msgUpdate.info.AddedTags = []
        ∧ msgUpdate.info.RemovedTags = []
    · rw [if_pos hdiff] at hc
      exact absurd hc (List.not_mem_nil c)
    · rw [if_neg hdiff] at hc
      simp only at hc
      have := updateUIDLoop_cmds_flags env ignored msgUpdate
        msgUpdate.info.UIDs db c hc t hmem
      exact this.2 ht

theorem updateMsg_ignored_never_transmitted_witness :
    "x" ∉ (StoreCmd.mk true 5 ["y"]).flags :=
  updateMsg_ignored_never_transmitted pushEnvOk
    ["x"] dbSample updIgnoredSample
    "x" (by decide) ⟨true, 5, ["y"]⟩ (by decide)

/-- Claim C4, as stated, fails: when the local diff adds the tag unread
and unread is not configured ignored, updateUID issues
UID STORE +FLAGS.SILENT (unread) — the tag is transmitted verbatim, no
reverse mapping to the absence of the Seen flag exists in the push
path. -/
theorem updateUID_unread_transmitted_cex :
    (updateUID pushEnvOk [] dbSample updUnreadSample
        ⟨"INBOX", 1, 5⟩).2.1 = [⟨true, 5, ["unread"]⟩]
    ∧ "unread" ∈ (StoreCmd.mk true 5 ["unread"]).flags := by
  constructor
  · rfl
  · decide

/-- Every APPEND the createMessage path issues carries exactly the
AddedTags flag list, verbatim. -/
theorem createMessage_append_flags (env : PushEnv) (db : SyncDB)
    (msgUpdate : Update) (uidInfo : UID) :
    (createMessage env db msgUpdate uidInfo).2.1 = none
    ∨ (createMessage env db msgUpdate uidInfo).2.1
      = some ⟨uidInfo.FolderName, msgUpdate.info.AddedTags⟩ := by
  unfold createMessage
  by_cases ho : env.openOk = false
  · rw [if_pos ho]
    exact Or.inl rfl
  · rw [if_neg ho]
    cases env.uidPlus with
    | none => exact Or.inl rfl
    | some b =>
      cases b with
      | false => exact Or.inl rfl
      | true =>
        cases env.appendRes with
        | none => exact Or.inr rfl
        | some p =>
          obtain ⟨v, u⟩ := p
          dsimp only
          by_cases hz : v = 0 ∨ u = 0
          · rw [if_pos hz]
            exact Or.inr rfl
          · rw [if_neg hz]
            exact Or.inr rfl

/-- Claim C4 (amended): the push path filters only ignored_tags from
the transmitted flag lists; the tag unread is not special-cased: every
flag of a UID STORE comes from the AddedTags/RemovedTags diff minus the
ignored set, whenever unread is in AddedTags and not ignored a
successful updateUID issues a UID STORE whose flag list contains
unread, and the APPEND of createMessage sends AddedTags verbatim —
unread included when present. -/
theorem updateUID_unread_transmission (env : PushEnv)
    (ignored : List String) (db : SyncDB) (msgUpdate : Update) (uid : UID)
    (hok : (updateUID env ignored db msgUpdate uid).1 = .ok ()) :
    (∀ c ∈ (updateUID env ignored db msgUpdate uid).2.1, ∀ v ∈ c.flags,
      (v ∈ msgUpdate.info.AddedTags ∨ v ∈ msgUpdate.info.RemovedTags)
      ∧ v ∉ ignored)
    ∧ ("unread" ∈ msgUpdate.info.AddedTags → "unread" ∉ ignored →
        ∃ c ∈ (updateUID env ignored db msgUpdate uid).2.1,
          "unread" ∈ c.flags)
    ∧ (∀ cmd, (createMessage env db msgUpdate uid).2.1 = some cmd →
        cmd.flags = msgUpdate.info.AddedTags) := by
  have happend : ∀ cmd, (createMessage env db msgUpdate uid).2.1 = some cmd →
      cmd.flags = msgUpdate.info.AddedTags := by
    intro cmd hcmd
    rcases createMessage_append_flags env db msgUpdate uid with hnone | hsome
    · rw [hnone] at hcmd
      exact absurd hcmd (by simp)
    · rw [hsome] at hcmd
      have hc := Option.some.inj hcmd
      rw [← hc]
  refine ⟨updateUID_cmds_flags env ignored db msgUpdate uid, ?_, happend⟩
  intro hmem hnig
  unfold updateUID at hok ⊢
  cases hsel : env.select uid.FolderName with
  | none =>
    rw [hsel] at hok
    dsimp only at hok
    exact absurd hok (by simp)
  | some validity =>
    rw [hsel] at hok
    dsimp only at hok ⊢
    by_cases hv : validity ≠ uid.UIDValidity
    · rw [if_pos hv] at hok
      exact absurd hok (by simp)
    · rw [if_neg hv]
      have hin : "unread" ∈ msgUpdate.info.AddedTags.filter
          (fun v => v ∉ ignored) :=
        List.mem_filter.mpr ⟨hmem, by simpa using hnig⟩
      have hne : msgUpdate.info.AddedTags.filter (fun v => v ∉ ignored)
          ≠ [] := List.ne_nil_of_mem hin
      refine ⟨⟨true, uid.UID,
        msgUpdate.info.AddedTags.filter (fun v => v ∉ ignored)⟩, ?_, hin⟩
      rw [if_neg hne]
      simp

theorem updateUID_unread_transmission_witness :
    (∀ c ∈ (updateUID pushEnvOk [] dbSample updUnreadSample
        ⟨"INBOX", 1, 5⟩).2.1, ∀ v ∈ c.flags,
      (v ∈ updUnreadSample.info.AddedTags
        ∨ v ∈ updUnreadSample.info.RemovedTags) ∧ v ∉ ([] : List String))
    ∧ ("unread" ∈ updUnreadSample.info.AddedTags →
        "unread" ∉ ([] : List String) →
        ∃ c ∈ (updateUID pushEnvOk [] dbSample updUnreadSample
          ⟨"INBOX", 1, 5⟩).2.1, "unread" ∈ c.flags)
    ∧ (∀ cmd, (createMessage pushEnvOk dbSample updUnreadSample
          ⟨"INBOX", 1, 5⟩).2.1 = some cmd →
        cmd.flags = updUnreadSample.info.AddedTags) :=
  updateUID_unread_transmission pushEnvOk [] dbSample updUnreadSample
    ⟨"INBOX", 1, 5⟩ rfl

/-- Claim C8: when the SELECT of a binding's folder reports a
UIDVALIDITY different from the stored one, updateUID returns the typed
validity error without issuing any UID STORE command and without
writing to the sync database. -/
theorem updateUID_validity_mismatch (env : PushEnv)
    (ignored : List String) (db : SyncDB) (msgUpdate : Update) (uid : UID)
    (v : Int) (hsel : env.select uid.FolderName = some v)
    (hne : v ≠ uid.UIDValidity) :
    updateUID env ignored db msgUpdate uid
      = (.error ("mailbox " ++ uid.FolderName
          ++ " has new UIDValidity - currently unsupported"), [], db) := by
  unfold updateUID
  rw [hsel]
  dsimp only
  rw [if_pos hne]

theorem updateUID_validity_mismatch_witness :
    updateUID pushEnvBad [] dbSample updUnreadSample ⟨"INBOX", 1, 5⟩
      = (.error ("mailbox " ++ "INBOX"
          ++ " has new UIDValidity - currently unsupported"), [],
         dbSample) :=
  updateUID_validity_mismatch pushEnvBad [] dbSample updUnreadSample
    ⟨"INBOX", 1, 5⟩ 2 rfl (by decide)

/-! ## Per-folder fetch loop (imap/fetch.go mailboxFetchMessages) -/

/-- The persisted per-folder cursor map (mailConfig.LastSeenUID, kept
in the .imap-uids sidecar; written out by Close). -/
structure MailCfg where
  LastSeenUID : List (String × Nat)
  deriving DecidableEq

def getLastSeenUID (cfg : MailCfg) (mailbox : String) : Nat :=
  match cfg.LastSeenUID.find? (fun p => p.1 = mailbox) with
  | some p => p.2
  | none => 0

def setLastSeenUID (cfg : MailCfg) (mailbox : String) (uid : Nat) :
    MailCfg :=
  if cfg.LastSeenUID.any (fun p => p.1 = mailbox) then
    ⟨cfg.LastSeenUID.map (fun p => if p.1 = mailbox then (p.1, uid) else p)⟩
  else ⟨cfg.LastSeenUID ++ [(mailbox, uid)]⟩

/-- The UID range requested by mailboxFetchMessages:
seqSet.AddRange(lastSeenUID+1, math.MaxUint32), with the cursor forced
to 0 on a full sync. The cursor is a uint32, so the increment wraps at
2^32. The upper bound is the literal 4294967295, not the IMAP star. -/
def fetchRange (cfg : MailCfg) (mailbox : String) (fullSync : Bool) :
    Nat × Nat :=
  (((if fullSync then 0 else getLastSeenUID cfg mailbox) + 1) % 4294967296,
   4294967295)

/-- A message as delivered on the fetch channel (UID FLAGS items). -/
structure FetchedMsg where
  uid : Nat
  flags : List String
  deriving DecidableEq

/-- Oracles for one mailboxFetchMessages run: the SELECT result
(message count and UIDVALIDITY; none = error), the messages delivered
on the channel, the error sitting in errchan after the loop (if any),
and the per-update outcome of the processing step — the getMessage
body download / index write / sync-db record, or the tag-adjustment
write — keyed by UID (none = success). -/
structure FetchEnv where
  select : Option (Nat × Nat)
  msgs : List FetchedMsg
  fetchErr : Option String
  procErr : Nat → Option String

/-- One entry of the update list built by the message loop. -/
structure UpdEntry where
  uid : Nat
  seen : Bool
  info : MessageInfo
  deriving DecidableEq

/-- The message loop of mailboxFetchMessages: reject UID 0, advance the
high-water mark, translate flags (a panic on an empty flag is modelled
as an error; either way the cursor update is never reached), consult
CheckTagsUID for seen messages, skip no-change messages, and collect
the update list. -/
def mfmScan (ignored : List String) (db : SyncDB) (mailbox : String)
    (validity : Nat) :
    List FetchedMsg → Nat → List UpdEntry →
      Except String (Nat × List UpdEntry)
  | [], lastSeen, acc => .ok (lastSeen, acc)
  | msg :: rest, lastSeen, acc =>
    if msg.uid = 0 then .error "server did not return UID"
    else
      let lastSeen1 := if msg.uid > lastSeen then msg.uid else lastSeen
      match translateFlags ignored msg.flags with
      | none => .error "panic: empty flag"
      | some (serverFlagMap, seen) =>
        if seen = true then
          let info := checkTagsUID db mailbox (validity : Int)
            (msg.uid : Int) serverFlagMap
          if info.Created = false ∧ info.AddedTags = []
              ∧ info.RemovedTags = [] then
            mfmScan ignored db mailbox validity rest lastSeen1 acc
          else
            mfmScan ignored db mailbox validity rest lastSeen1
              (acc ++ [⟨msg.uid,
                if info.Created = true then false else seen, info⟩])
        else
          mfmScan ignored db mailbox validity rest lastSeen1
            (acc ++ [⟨msg.uid, seen, {}⟩])

/-- The processing loop over the collected update list: the first
failing step aborts the whole folder. -/
def mfmProcess (procErr : Nat → Option String) :
    List UpdEntry → Option String
  | [] => none
  | u :: rest =>
    match procErr u.uid with
    | some e => some e
    | none => mfmProcess procErr rest

/-- mailboxFetchMessages from imap/fetch.go, with network, filesystem
and notmuch effects supplied by the FetchEnv oracles. The cursor map is
threaded explicitly; the only write to it is the setLastSeenUID call
after the whole folder has been processed. -/
def mailboxFetchMessages (env : FetchEnv) (ignored : List String)
    (db : SyncDB) (cfg : MailCfg) (mailbox : String) (fullSync : Bool) :
    Except String Unit × MailCfg :=
  match env.select with
  | none => (.error "select failed", cfg)
  | some (nMsgs, validity) =>
    if nMsgs = 0 then (.ok (), cfg)
    else
      match mfmScan ignored db mailbox validity env.msgs
        (if fullSync then 0 else getLastSeenUID cfg mailbox) [] with
      | .error e => (.error e, cfg)
      | .ok (lastSeen, updates) =>
        match env.fetchErr with
        | some e => (.error e, cfg)
        | none =>
          match mfmProcess env.procErr updates with
          | some e => (.error e, cfg)
          | none => (.ok (), setLastSeenUID cfg mailbox lastSeen)

/-- Claim C7: mailboxFetchMessages updates the persisted lastSeenUID
cursor only after every message in the folder has been processed
without error; whenever it returns an error — from the select, the
fetch stream, a protocol violation, or any per-message processing step
— it returns before calling setLastSeenUID and the cursor map is
unchanged. -/
theorem mailboxFetchMessages_error_keeps_cursor (env : FetchEnv)
    (ignored : List String) (db : SyncDB) (cfg : MailCfg)
    (mailbox : String) (fullSync : Bool) (e : String)
    (h : (mailboxFetchMessages env ignored db cfg mailbox fullSync).1
      = .error e) :
    (mailboxFetchMessages env ignored db cfg mailbox fullSync).2 = cfg := by
  unfold mailboxFetchMessages at h ⊢
  cases hsel : env.select with
  | none => rfl
  | some p =>
    obtain ⟨nMsgs, validity⟩ := p
    rw [hsel] at h
    dsimp only at h ⊢
    by_cases hz : nMsgs = 0
    · rw [if_pos hz] at h
      exact absurd h (by simp)
    · rw [if_neg hz] at h ⊢
      cases hs : mfmScan ignored db mailbox validity env.msgs
        (if fullSync then 0 else getLastSeenUID cfg mailbox) [] with
      | error e2 => rfl
      | ok p2 =>
        obtain ⟨lastSeen, updates⟩ := p2
        rw [hs] at h
        dsimp only at h ⊢
        cases hf : env.fetchErr with
        | some e3 => rfl
        | none =>
          rw [hf] at h
          dsimp only at h ⊢
          cases hp : mfmProcess env.procErr updates with
          | some e4 => rfl
          | none =>
            rw [hp] at h
            exact absurd h (by simp)

theorem mailboxFetchMessages_error_keeps_cursor_witness :
    (mailboxFetchMessages ⟨some (3, 7), [⟨0, []⟩], none, fun _ => none⟩
      [] dbSample ⟨[("INBOX", 5)]⟩ "INBOX" false).2 = ⟨[("INBOX", 5)]⟩ :=
  mailboxFetchMessages_error_keeps_cursor
    ⟨some (3, 7), [⟨0, []⟩], none, fun _ => none⟩
    [] dbSample ⟨[("INBOX", 5)]⟩ "INBOX" false
    "server did not return UID" rfl

/-- Claim C9, as stated, fails at the degenerate cursor 4294967295: the
cursor is a uint32, so lastSeenUID+1 wraps to 0 and the requested range
is 0:4294967295 rather than (c+1):4294967295. -/
theorem fetchRange_wrap_cex :
    fetchRange ⟨[("INBOX", 4294967295)]⟩ "INBOX" false
        = (0, 4294967295)
    ∧ (0 : Nat) ≠ 4294967295 + 1 := by
  constructor
  · rfl
  · decide

/-- Claim C9 (amended): for every folder scan whose effective cursor c
(0 on a full scan, the persisted value otherwise) satisfies
c + 1 < 2^32, the requested UID range is exactly c+1 through
4294967295 = 2^32 − 1 — a literal upper bound, never the IMAP star —
and no UID at or below c lies inside the requested range, so a folder
with no message newer than c yields no re-fetched message. -/
theorem fetchRange_spec (cfg : MailCfg) (mailbox : String)
    (fullSync : Bool)
    (h : (if fullSync then 0 else getLastSeenUID cfg mailbox) + 1
      < 4294967296) :
    fetchRange cfg mailbox fullSync
      = ((if fullSync then 0 else getLastSeenUID cfg mailbox) + 1,
         4294967295)
    ∧ ∀ u : Nat, u ≤ (if fullSync then 0 else getLastSeenUID cfg mailbox) →
        ¬((fetchRange cfg mailbox fullSync).1 ≤ u
          ∧ u ≤ (fetchRange cfg mailbox fullSync).2) := by
  have heq : fetchRange cfg mailbox fullSync
      = ((if fullSync then 0 else getLastSeenUID cfg mailbox) + 1,
         4294967295) := by
    unfold fetchRange
    rw [Nat.mod_eq_of_lt h]
  refine ⟨heq, ?_⟩
  intro u hu
  rw [heq]
  intro hcon
  omega

theorem fetchRange_spec_witness :
    fetchRange ⟨[("INBOX", 41)]⟩ "INBOX" false
      = ((if false then 0 else getLastSeenUID ⟨[("INBOX", 41)]⟩ "INBOX") + 1,
         4294967295)
    ∧ ∀ u : Nat,
        u ≤ (if false then 0 else getLastSeenUID ⟨[("INBOX", 41)]⟩ "INBOX") →
        ¬((fetchRange ⟨[("INBOX", 41)]⟩ "INBOX" false).1 ≤ u
          ∧ u ≤ (fetchRange ⟨[("INBOX", 41)]⟩ "INBOX" false).2) :=
  fetchRange_spec ⟨[("INBOX", 41)]⟩ "INBOX" false (by decide)

end NmSync
